import Mathlib

/-!
Verification of the token-list validator (`src/validate.ts`).

The validator is a single linear pass over a parsed token-list document.
We embed the data model and every check of `validateTokenList` as pure
Lean functions.  External effects are made explicit:

* the JSON-schema conformance test (the schema document lives outside the
  validation core) is an injected predicate `schemaOk`;
* `new Date(s)` is an injected `parse : String → Option Int` returning the
  epoch value, `none` standing for JavaScript's Invalid Date (`NaN`);
  date comparisons on `NaN` are false, modelled by `jsLt`;
* the HTTP HEAD probe of a record's logo is an injected `probe : String → Bool`
  (`true` = request succeeded with status 200);
* `console.error`/`console.log`/`process.exit` calls and issued probes are
  recorded in an `VAction` trace returned next to the verdict.

The duplicate/identity keys are kept exactly as the source builds them:
template strings of the shape `chainId ++ "-" ++ field`, with the decimal
rendering of the chain id.  Injectivity of that encoding is proved below
(`keyStr_inj`), so key equality coincides with componentwise equality.
-/

structure Token where
  name : String
  chainId : Nat
  symbol : String
  decimals : Nat
  address : String
  logoURI : String
deriving DecidableEq

structure Version where
  major : Nat
  minor : Nat
  patch : Nat
deriving DecidableEq

structure TokenList where
  name : String
  version : Version
  keywords : List String
  logoURI : String
  timestamp : String
  tokens : List Token
deriving DecidableEq

/-- The fixed configuration constants of the validator (`ALLOWED_CHAIN_IDS`,
`REQUIRED_KEYWORDS`, `REQUIRED_LIST_LOGO_URI` and the required list name). -/
structure Config where
  allowedChainIds : List Nat
  requiredKeywords : List String
  requiredListLogoURI : String
  requiredListName : String
deriving DecidableEq

/-- The constants hard-coded at the top of `validate.ts`. -/
def defaultConfig : Config where
  allowedChainIds := [89898, 2786]
  requiredKeywords := ["apertum", "tokens", "trusted"]
  requiredListLogoURI := "https://assets.apertum.io/assets/apertum-logo.svg"
  requiredListName := "Apertum Token List"

/-- The violation kinds of the specification, one per check of the source. -/
inductive Violation where
  | SchemaViolation
  | ImmutableFieldViolation
  | TimestampViolation
  | VersionViolation
  | DuplicateViolation
  | ImmutableRecordViolation
  | ChainIdViolation
  | UnreachableLogoViolation
deriving DecidableEq

/-- Observable actions of a validator run: a reported violation
(`console.error` tagged with its kind), a `process.exit(code)` call, an
issued HTTP HEAD probe of a logo URI, and the final success `console.log`. -/
inductive VAction where
  | err (v : Violation)
  | exitP (code : Nat)
  | probe (uri : String)
  | log
deriving DecidableEq

/-- JavaScript `<` on two `Date` values, given as epoch numbers with `none`
for Invalid Date: any comparison against `NaN` is false. -/
def jsLt : Option Int → Option Int → Bool
  | some a, some b => decide (a < b)
  | _, _ => false

/-- Character-wise lowercase, modelling JavaScript `toLowerCase` (the source
only ever lowercases ASCII addresses, names and symbols). -/
def jsToLower (s : String) : String :=
  ⟨s.data.map Char.toLower⟩

/-- The template-string key `chainId-field` used by every uniqueness map in
the source (`` `${token.chainId}-${...}` ``). -/
def keyStr (n : Nat) (s : String) : String :=
  Nat.repr n ++ "-" ++ s

/-- Key of the duplicate-address map and of the previous-token map:
`chainId-address.toLowerCase()`. -/
def addressKey (t : Token) : String :=
  keyStr t.chainId (jsToLower t.address)

/-- Key of the duplicate-name map: `chainId-name.toLowerCase()`. -/
def nameKeyOf (t : Token) : String :=
  keyStr t.chainId (jsToLower t.name)

/-- Key of the duplicate-symbol map: `chainId-symbol.toLowerCase()`. -/
def symbolKey (t : Token) : String :=
  keyStr t.chainId (jsToLower t.symbol)

/-- Key of the duplicate-logoURI map: `chainId-logoURI` (no case folding). -/
def logoKey (t : Token) : String :=
  keyStr t.chainId t.logoURI

/-- Each duplicate-detection loop of the source walks the token list, failing
as soon as the current key is already in the map; that happens exactly when
some key reappears later in the key list. -/
def hasDupKey : List String → Bool
  | [] => false
  | k :: ks => ks.contains k || hasDupKey ks

/-- Lines 64-69: `ajv` schema validation; the schema document is external to
the core, so the conformance test is the injected predicate `schemaOk`. -/
def schemaCheck (schemaOk : TokenList → Bool) (tl : TokenList) : Option Violation :=
  if schemaOk tl then none else some .SchemaViolation

/-- Lines 71-75: the list name must equal the required constant. -/
def nameCheck (cfg : Config) (tl : TokenList) : Option Violation :=
  if tl.name = cfg.requiredListName then none else some .ImmutableFieldViolation

/-- Lines 77-81: `REQUIRED_KEYWORDS.every(k => keywords.includes(k))`. -/
def keywordsCheck (cfg : Config) (tl : TokenList) : Option Violation :=
  if cfg.requiredKeywords.all (fun k => tl.keywords.contains k) then none
  else some .ImmutableFieldViolation

/-- Lines 83-87: the list logo URI must equal the required constant. -/
def listLogoCheck (cfg : Config) (tl : TokenList) : Option Violation :=
  if tl.logoURI = cfg.requiredListLogoURI then none else some .ImmutableFieldViolation

/-- Lines 89-104: the candidate timestamp must not lie in the future, and,
when a previous document exists, must not precede its timestamp. -/
def timestampCheck (parse : String → Option Int) (now : Int)
    (prev : Option TokenList) (tl : TokenList) : Option Violation :=
  if jsLt (some now) (parse tl.timestamp) then some .TimestampViolation
  else
    match prev with
    | some p =>
      if jsLt (parse tl.timestamp) (parse p.timestamp) then some .TimestampViolation
      else none
    | none => none

/-- Lines 106-118: when a previous document exists, fail unless the version
triple strictly increased. -/
def versionCheck (prev : Option TokenList) (tl : TokenList) : Option Violation :=
  match prev with
  | none => none
  | some p =>
    if tl.version.major < p.version.major ∨
        (tl.version.major = p.version.major ∧ tl.version.minor < p.version.minor) ∨
        (tl.version.major = p.version.major ∧ tl.version.minor = p.version.minor ∧
          tl.version.patch ≤ p.version.patch)
    then some .VersionViolation else none

/-- Lines 120-162: the four duplicate-map loops over address, name, symbol
and logoURI keys, in source order. -/
def dupCheck (tl : TokenList) : Option Violation :=
  if hasDupKey (tl.tokens.map addressKey) || hasDupKey (tl.tokens.map nameKeyOf) ||
      hasDupKey (tl.tokens.map symbolKey) || hasDupKey (tl.tokens.map logoKey)
  then some .DuplicateViolation else none

/-- Lines 166-171: `new Map(previousTokens.map(t => [key, t]))`; for a
duplicated key the `Map` constructor keeps the last entry, so lookup finds
the last token with the given address key. -/
def lookupPrev (prevTokens : List Token) (k : String) : Option Token :=
  prevTokens.reverse.find? (fun q => addressKey q == k)

/-- Lines 173-186, loop body: a candidate token is flagged when its address
key matches a previous token and any of the four compared fields differs. -/
def recordModified (prevTokens : List Token) (t : Token) : Bool :=
  match lookupPrev prevTokens (addressKey t) with
  | some q =>
    t.name != q.name || t.symbol != q.symbol || t.decimals != q.decimals ||
      t.logoURI != q.logoURI
  | none => false

/-- Lines 164-188: the cross-version immutability check; skipped entirely
when no previous document exists. -/
def immutCheck (prev : Option TokenList) (tl : TokenList) : Option Violation :=
  match prev with
  | some p =>
    if tl.tokens.any (recordModified p.tokens) then some .ImmutableRecordViolation
    else none
  | none => none

/-- Lines 190-196: every record's chain id must belong to the allow-list. -/
def chainIdCheck (cfg : Config) (tl : TokenList) : Option Violation :=
  if tl.tokens.any (fun t => !(cfg.allowedChainIds.contains t.chainId))
  then some .ChainIdViolation else none

/-- Steps 1-7 of the validator in source order: first failing check wins
(the source exits the process at each failure). -/
def deterministicChecks (cfg : Config) (schemaOk : TokenList → Bool)
    (parse : String → Option Int) (now : Int)
    (prev : Option TokenList) (tl : TokenList) : Option Violation :=
  schemaCheck schemaOk tl <|> nameCheck cfg tl <|> keywordsCheck cfg tl <|>
    listLogoCheck cfg tl <|> timestampCheck parse now prev tl <|>
    versionCheck prev tl <|> dupCheck tl <|> immutCheck prev tl <|>
    chainIdCheck cfg tl

/-- Lines 198-210: sequentially probe each token's logo URI, reporting and
exiting at the first failed probe; line 212 logs success when all pass. -/
def runProbes (probe : String → Bool) : List Token → Option Violation × List VAction
  | [] => (none, [VAction.log])
  | t :: ts =>
    if probe t.logoURI then
      let r := runProbes probe ts
      (r.1, VAction.probe t.logoURI :: r.2)
    else
      (some .UnreachableLogoViolation,
        [VAction.probe t.logoURI, VAction.err .UnreachableLogoViolation, VAction.exitP 1])

/-- The whole of `validateTokenList`: run the deterministic checks in source
order; on the first violation report it and exit the process, otherwise
probe every logo.  Returns the verdict and the trace of observable actions. -/
def validateTokenList (cfg : Config) (schemaOk : TokenList → Bool)
    (parse : String → Option Int) (now : Int) (probe : String → Bool)
    (prev : Option TokenList) (tl : TokenList) : Option Violation × List VAction :=
  match deterministicChecks cfg schemaOk parse now prev tl with
  | some v => (some v, [VAction.err v, VAction.exitP 1])
  | none => runProbes probe tl.tokens

/-- Sample date parser for concrete instances: two known timestamp strings. -/
def sampleParse : String → Option Int := fun s =>
  if s = "2024-01-02" then some 5 else if s = "2024-01-01" then some 3 else none

/-- Sample record on an allowed chain. -/
def tokenA : Token where
  name := "Foo"
  chainId := 89898
  symbol := "FOO"
  decimals := 18
  address := "0xAAA"
  logoURI := "https://a/1.png"

/-- The same record with only the letter-case of the address changed. -/
def tokenACase : Token := { tokenA with address := "0xaaa" }

/-- The same record with its decimals changed. -/
def tokenAMod : Token := { tokenA with decimals := 6 }

/-- Sample previous accepted document. -/
def prevDoc : TokenList where
  name := "Apertum Token List"
  version := ⟨1, 0, 0⟩
  keywords := ["apertum", "tokens", "trusted"]
  logoURI := "https://assets.apertum.io/assets/apertum-logo.svg"
  timestamp := "2024-01-01"
  tokens := [tokenA]

/-- Candidate resubmitting the same record, version and timestamp bumped. -/
def candOk : TokenList :=
  { prevDoc with version := ⟨1, 0, 1⟩, timestamp := "2024-01-02", tokens := [tokenA] }

/-- Candidate modifying the decimals of the existing record. -/
def candMod : TokenList :=
  { prevDoc with version := ⟨1, 0, 1⟩, timestamp := "2024-01-02", tokens := [tokenAMod] }

/-- Candidate changing only the letter-case of the existing record's address. -/
def candCase : TokenList :=
  { prevDoc with version := ⟨1, 0, 1⟩, timestamp := "2024-01-02", tokens := [tokenACase] }

/-- Candidate with a changed list name (fails the fixed-identity check). -/
def candBadName : TokenList := { prevDoc with name := "Bad List" }

/-- Candidate whose timestamp string does not parse as a date. -/
def candBadTs : TokenList := { candOk with timestamp := "not-a-date" }

/-- Specification-side definition, following the spec's words: the candidate
version triple is strictly greater than the previous one under lexicographic
order `(major, minor, patch)`.  Compared below with the source's own test. -/
def specVersionGt (a b : Version) : Prop :=
  b.major < a.major ∨ (b.major = a.major ∧ b.minor < a.minor) ∨
    (b.major = a.major ∧ b.minor = a.minor ∧ b.patch < a.patch)

/-- Numeric value of a decimal digit character. -/
def digitVal (c : Char) : Nat := c.toNat - 48

/-- Value of a big-endian list of decimal digit characters. -/
def ofDigits10 (l : List Char) : Nat :=
  l.foldl (fun a c => 10 * a + digitVal c) 0

lemma digitChar_ne_dash (m : Nat) (hm : m < 10) : Nat.digitChar m ≠ '-' := by
  interval_cases m <;> decide

lemma toDigitsCore_ne_dash : ∀ (fuel n : Nat) (acc : List Char),
    (∀ c ∈ acc, c ≠ '-') → ∀ c ∈ Nat.toDigitsCore 10 fuel n acc, c ≠ '-' := by
  intro fuel
  induction fuel with
  | zero =>
    intro n acc hacc c hc
    simp only [Nat.toDigitsCore] at hc
    exact hacc c hc
  | succ fuel ih =>
    intro n acc hacc c hc
    rw [Nat.toDigitsCore] at hc
    split at hc
    · rcases List.mem_cons.1 hc with h | h
      · exact h ▸ digitChar_ne_dash _ (Nat.mod_lt _ (by norm_num))
      · exact hacc c h
    · refine ih _ _ ?_ c hc
      intro d hd
      rcases List.mem_cons.1 hd with h | h
      · exact h ▸ digitChar_ne_dash _ (Nat.mod_lt _ (by norm_num))
      · exact hacc d h

lemma toDigitsCore_shift : ∀ (fuel n : Nat) (acc : List Char),
    Nat.toDigitsCore 10 fuel n acc = Nat.toDigitsCore 10 fuel n [] ++ acc := by
  intro fuel
  induction fuel with
  | zero => intro n acc; simp [Nat.toDigitsCore]
  | succ fuel ih =>
    intro n acc
    rw [Nat.toDigitsCore, Nat.toDigitsCore]
    split
    · simp
    · rw [ih (n / 10) (Nat.digitChar (n % 10) :: acc),
        ih (n / 10) [Nat.digitChar (n % 10)], List.append_assoc]
      rfl

lemma digitVal_digitChar (m : Nat) (h : m < 10) :
    digitVal (Nat.digitChar m) = m := by
  interval_cases m <;> decide

lemma ofDigits10_append_singleton (l : List Char) (c : Char) :
    ofDigits10 (l ++ [c]) = 10 * ofDigits10 l + digitVal c := by
  simp [ofDigits10, List.foldl_append]

lemma ofDigits10_toDigitsCore : ∀ (fuel n : Nat), n < 10 ^ fuel →
    ofDigits10 (Nat.toDigitsCore 10 fuel n []) = n := by
  intro fuel
  induction fuel with
  | zero =>
    intro n hn
    simp only [pow_zero, Nat.lt_one_iff] at hn
    subst hn
    simp [Nat.toDigitsCore, ofDigits10]
  | succ fuel ih =>
    intro n hn
    rw [Nat.toDigitsCore]
    split
    · rename_i h0
      have hlt : n % 10 < 10 := Nat.mod_lt _ (by norm_num)
      simp only [ofDigits10, List.foldl, Nat.mul_zero, Nat.zero_add]
      rw [digitVal_digitChar _ hlt]
      omega
    · rename_i h0
      rw [toDigitsCore_shift, ofDigits10_append_singleton]
      have hdiv : n / 10 < 10 ^ fuel := by
        rw [Nat.div_lt_iff_lt_mul (by norm_num : (0:Nat) < 10)]
        calc n < 10 ^ (fuel + 1) := hn
        _ = 10 ^ fuel * 10 := by rw [pow_succ]
      rw [ih _ hdiv, digitVal_digitChar _ (Nat.mod_lt _ (by norm_num))]
      omega

lemma repr_data (n : Nat) : (Nat.repr n).data = Nat.toDigits 10 n := rfl

lemma repr_no_dash (n : Nat) : '-' ∉ (Nat.repr n).data := by
  rw [repr_data]
  intro h
  exact toDigitsCore_ne_dash (n + 1) n [] (by simp) '-' h rfl

lemma repr_inj {n m : Nat} (h : Nat.repr n = Nat.repr m) : n = m := by
  have hb : ∀ k : Nat, k < 10 ^ (k + 1) := fun k =>
    lt_of_lt_of_le (Nat.lt_pow_self (by norm_num) k)
      (Nat.pow_le_pow_right (by norm_num) (Nat.le_succ k))
  have hd : Nat.toDigits 10 n = Nat.toDigits 10 m := by
    rw [← repr_data, ← repr_data, h]
  have h1 := ofDigits10_toDigitsCore (n + 1) n (hb n)
  have h2 := ofDigits10_toDigitsCore (m + 1) m (hb m)
  rw [show Nat.toDigitsCore 10 (n + 1) n [] = Nat.toDigits 10 n from rfl] at h1
  rw [show Nat.toDigitsCore 10 (m + 1) m [] = Nat.toDigits 10 m from rfl] at h2
  rw [← h1, ← h2, hd]

lemma append_sep_cancel : ∀ (xs ys a b : List Char), '-' ∉ xs → '-' ∉ ys →
    xs ++ '-' :: a = ys ++ '-' :: b → xs = ys ∧ a = b := by
  intro xs
  induction xs with
  | nil =>
    intro ys a b _ hy h
    cases ys with
    | nil =>
      simp only [List.nil_append, List.cons.injEq] at h
      exact ⟨rfl, h.2⟩
    | cons y ys =>
      simp only [List.nil_append, List.cons_append, List.cons.injEq] at h
      exact absurd (by rw [← h.1]; exact List.mem_cons_self _ _) hy
  | cons x xs ih =>
    intro ys a b hx hy h
    cases ys with
    | nil =>
      simp only [List.cons_append, List.nil_append, List.cons.injEq] at h
      exact absurd (by rw [h.1]; exact List.mem_cons_self '-' xs) hx
    | cons y ys =>
      simp only [List.cons_append, List.cons.injEq] at h
      obtain ⟨hxy, htl⟩ := h
      obtain ⟨h1, h2⟩ := ih ys a b (fun hc => hx (List.mem_cons_of_mem x hc))
        (fun hc => hy (List.mem_cons_of_mem y hc)) htl
      exact ⟨by rw [hxy, h1], h2⟩

/-- The template-string key is injective: the decimal chain id contains no
dash, so the first dash separates the two components unambiguously. -/
lemma keyStr_inj {n m : Nat} {s t : String} :
    keyStr n s = keyStr m t ↔ n = m ∧ s = t := by
  constructor
  · intro h
    have hd := congrArg String.data h
    simp only [keyStr, String.data_append, List.append_assoc] at hd
    have hd2 : (Nat.repr n).data ++ '-' :: s.data =
        (Nat.repr m).data ++ '-' :: t.data := by
      simpa using hd
    obtain ⟨h1, h2⟩ :=
      append_sep_cancel _ _ _ _ (repr_no_dash n) (repr_no_dash m) hd2
    exact ⟨repr_inj (String.ext h1), String.ext h2⟩
  · rintro ⟨rfl, rfl⟩
    rfl

lemma addressKey_eq_iff {t u : Token} :
    addressKey t = addressKey u ↔
      (t.chainId = u.chainId ∧ jsToLower t.address = jsToLower u.address) :=
  keyStr_inj

lemma nameKeyOf_eq_iff {t u : Token} :
    nameKeyOf t = nameKeyOf u ↔
      (t.chainId = u.chainId ∧ jsToLower t.name = jsToLower u.name) :=
  keyStr_inj

lemma symbolKey_eq_iff {t u : Token} :
    symbolKey t = symbolKey u ↔
      (t.chainId = u.chainId ∧ jsToLower t.symbol = jsToLower u.symbol) :=
  keyStr_inj

lemma logoKey_eq_iff {t u : Token} :
    logoKey t = logoKey u ↔ (t.chainId = u.chainId ∧ t.logoURI = u.logoURI) :=
  keyStr_inj

lemma hasDupKey_eq_true_iff (l : List String) : hasDupKey l = true ↔ ¬ l.Nodup := by
  induction l with
  | nil => simp [hasDupKey]
  | cons k ks ih =>
    simp only [hasDupKey, Bool.or_eq_true, ih, List.nodup_cons]
    constructor
    · rintro (h | h)
      · intro hc
        have hm : ks.elem k = true := h
        exact hc.1 (List.elem_iff.1 hm)
      · intro hc
        exact h hc.2
    · intro h
      by_cases hk : k ∈ ks
      · exact Or.inl (List.elem_iff.2 hk)
      · right
        intro hnd
        exact h ⟨hk, hnd⟩

lemma not_nodup_iff_get {α : Type} (l : List α) :
    ¬ l.Nodup ↔ ∃ i j : Fin l.length, i.val < j.val ∧ l.get i = l.get j := by
  rw [List.nodup_iff_injective_get]
  constructor
  · intro h
    rw [Function.Injective] at h
    push_neg at h
    obtain ⟨i, j, hget, hne⟩ := h
    rcases lt_trichotomy i.val j.val with hlt | heq | hgt
    · exact ⟨i, j, hlt, hget⟩
    · exact absurd (Fin.ext heq) hne
    · exact ⟨j, i, hgt, hget.symm⟩
  · rintro ⟨i, j, hlt, hget⟩ hinj
    have h := hinj hget
    subst h
    exact lt_irrefl _ hlt

lemma hasDupKey_map_iff (f : Token → String) (ts : List Token) :
    hasDupKey (ts.map f) = true ↔
      ∃ i j : Fin ts.length, i.val < j.val ∧ f (ts.get i) = f (ts.get j) := by
  rw [hasDupKey_eq_true_iff, not_nodup_iff_get]
  have e : (ts.map f).length = ts.length := List.length_map ts f
  constructor
  · rintro ⟨i, j, hlt, hget⟩
    refine ⟨Fin.cast e i, Fin.cast e j, hlt, ?_⟩
    simpa [List.get_eq_getElem, List.getElem_map] using hget
  · rintro ⟨i, j, hlt, hget⟩
    refine ⟨Fin.cast e.symm i, Fin.cast e.symm j, hlt, ?_⟩
    simpa [List.get_eq_getElem, List.getElem_map] using hget

lemma jsLt_some_some (a b : Int) : jsLt (some a) (some b) = decide (a < b) := rfl

lemma jsLt_none_left (b : Option Int) : jsLt none b = false := by
  cases b <;> rfl

lemma jsLt_none_right (a : Option Int) : jsLt a none = false := by
  cases a <;> rfl

lemma if_some_iff {c : Prop} [Decidable c] {k : Violation} :
    (if c then some k else none) = some k ↔ c := by
  split <;> simp_all

lemma if_none_iff {c : Prop} [Decidable c] {k : Violation} :
    (if c then some k else none) = none ↔ ¬ c := by
  split <;> simp_all

lemma if_flip_some_iff {c : Prop} [Decidable c] {k : Violation} :
    (if c then none else some k) = some k ↔ ¬ c := by
  split <;> simp_all

lemma if_flip_none_iff {c : Prop} [Decidable c] {k : Violation} :
    (if c then none else some k) = none ↔ c := by
  split <;> simp_all

lemma lookupPrev_eq_some {ts : List Token} {k : String} {q : Token}
    (h : lookupPrev ts k = some q) : q ∈ ts ∧ addressKey q = k := by
  unfold lookupPrev at h
  refine ⟨List.mem_reverse.1 (List.mem_of_find?_eq_some h), ?_⟩
  have hp := List.find?_some h
  exact eq_of_beq hp

lemma lookupPrev_self {ts : List Token} {q : Token} (hq : q ∈ ts) :
    ∃ r, lookupPrev ts (addressKey q) = some r := by
  unfold lookupPrev
  have hex : ∃ x, x ∈ ts.reverse ∧ (addressKey x == addressKey q) = true :=
    ⟨q, List.mem_reverse.2 hq, beq_self_eq_true _⟩
  exact Option.isSome_iff_exists.1 (List.find?_isSome.2 hex)

lemma lookupPrev_nodup {ts : List Token} (hnd : (ts.map addressKey).Nodup)
    {q : Token} (hq : q ∈ ts) : lookupPrev ts (addressKey q) = some q := by
  obtain ⟨r, hr⟩ := lookupPrev_self hq
  obtain ⟨hrm, hrk⟩ := lookupPrev_eq_some hr
  have heq : r = q := List.inj_on_of_nodup_map hnd hrm hq hrk
  rw [hr, heq]

lemma schemaCheck_shape (s : TokenList → Bool) (tl : TokenList) :
    schemaCheck s tl = none ∨ schemaCheck s tl = some .SchemaViolation := by
  unfold schemaCheck
  split <;> simp

lemma nameCheck_shape (cfg : Config) (tl : TokenList) :
    nameCheck cfg tl = none ∨ nameCheck cfg tl = some .ImmutableFieldViolation := by
  unfold nameCheck
  split <;> simp

lemma keywordsCheck_shape (cfg : Config) (tl : TokenList) :
    keywordsCheck cfg tl = none ∨ keywordsCheck cfg tl = some .ImmutableFieldViolation := by
  unfold keywordsCheck
  split <;> simp

lemma listLogoCheck_shape (cfg : Config) (tl : TokenList) :
    listLogoCheck cfg tl = none ∨ listLogoCheck cfg tl = some .ImmutableFieldViolation := by
  unfold listLogoCheck
  split <;> simp

lemma timestampCheck_shape (parse : String → Option Int) (now : Int)
    (prev : Option TokenList) (tl : TokenList) :
    timestampCheck parse now prev tl = none ∨
      timestampCheck parse now prev tl = some .TimestampViolation := by
  unfold timestampCheck
  split
  · simp
  · cases prev with
    | none => simp
    | some p => split <;> simp

lemma versionCheck_shape (prev : Option TokenList) (tl : TokenList) :
    versionCheck prev tl = none ∨ versionCheck prev tl = some .VersionViolation := by
  cases prev with
  | none => left; rfl
  | some p =>
    simp only [versionCheck]
    split <;> simp

lemma dupCheck_shape (tl : TokenList) :
    dupCheck tl = none ∨ dupCheck tl = some .DuplicateViolation := by
  unfold dupCheck
  split <;> simp

lemma immutCheck_shape (prev : Option TokenList) (tl : TokenList) :
    immutCheck prev tl = none ∨ immutCheck prev tl = some .ImmutableRecordViolation := by
  cases prev with
  | none => left; rfl
  | some p =>
    simp only [immutCheck]
    split <;> simp

lemma chainIdCheck_shape (cfg : Config) (tl : TokenList) :
    chainIdCheck cfg tl = none ∨ chainIdCheck cfg tl = some .ChainIdViolation := by
  unfold chainIdCheck
  split <;> simp

lemma runProbes_shape (probe : String → Bool) (ts : List Token) :
    (runProbes probe ts).1 = none ∨
      (runProbes probe ts).1 = some .UnreachableLogoViolation := by
  induction ts with
  | nil => left; rfl
  | cons t ts ih =>
    unfold runProbes
    split
    · simpa using ih
    · right; rfl

lemma runProbes_none_trace (probe : String → Bool) (ts : List Token)
    (h : (runProbes probe ts).1 = none) :
    (∀ v, VAction.err v ∉ (runProbes probe ts).2) ∧
      (∀ c, VAction.exitP c ∉ (runProbes probe ts).2) := by
  induction ts with
  | nil =>
    constructor
    · intro v hv
      simp [runProbes] at hv
    · intro c hc
      simp [runProbes] at hc
  | cons t ts ih =>
    unfold runProbes at h ⊢
    split at h
    · rename_i hp
      rw [if_pos hp]
      obtain ⟨h1, h2⟩ := ih h
      refine ⟨fun v hv => ?_, fun c hc => ?_⟩
      · rcases List.mem_cons.1 hv with he | he
        · exact absurd he (by simp)
        · exact h1 v he
      · rcases List.mem_cons.1 hc with he | he
        · exact absurd he (by simp)
        · exact h2 c he
    · simp at h

lemma runProbes_some_trace (probe : String → Bool) (ts : List Token) (v : Violation)
    (h : (runProbes probe ts).1 = some v) :
    v = .UnreachableLogoViolation ∧ VAction.err v ∈ (runProbes probe ts).2 ∧
      VAction.exitP 1 ∈ (runProbes probe ts).2 := by
  induction ts with
  | nil => simp [runProbes] at h
  | cons t ts ih =>
    unfold runProbes at h ⊢
    split at h
    · rename_i hp
      rw [if_pos hp]
      obtain ⟨h1, h2, h3⟩ := ih h
      exact ⟨h1, List.mem_cons_of_mem _ h2, List.mem_cons_of_mem _ h3⟩
    · rename_i hp
      rw [if_neg hp]
      simp only [Prod.fst] at h
      have hv : v = .UnreachableLogoViolation := by
        injection h with h
        exact h.symm
      subst hv
      simp

lemma runProbes_err_mem (probe : String → Bool) (ts : List Token) (v : Violation)
    (h : VAction.err v ∈ (runProbes probe ts).2) :
    (runProbes probe ts).1 = some v := by
  induction ts with
  | nil => simp [runProbes] at h
  | cons t ts ih =>
    unfold runProbes at h ⊢
    split at h
    · rename_i hp
      rw [if_pos hp]
      rcases List.mem_cons.1 h with he | he
      · exact absurd he (by simp)
      · simpa using ih he
    · rename_i hp
      rw [if_neg hp]
      simp only [List.mem_cons, List.mem_singleton] at h
      rcases h with he | he | he
      · exact absurd he (by simp)
      · injection he with he
        rw [he]
      · exact absurd he (by simp)

/-- C2: with a previous document supplied, the version check passes exactly
when the candidate's `(major, minor, patch)` triple is strictly greater than
the previous document's triple under lexicographic order, and an equal or
lesser triple fails with `VersionViolation`. -/
theorem versionCheck_iff_lex_gt (p tl : TokenList) :
    (versionCheck (some p) tl = none ↔ specVersionGt tl.version p.version) ∧
    (versionCheck (some p) tl = some .VersionViolation ↔
      ¬ specVersionGt tl.version p.version) := by
  have key : versionCheck (some p) tl = none ↔ specVersionGt tl.version p.version := by
    simp only [versionCheck, specVersionGt]
    rw [if_none_iff]
    omega
  refine ⟨key, ?_⟩
  rcases versionCheck_shape (some p) tl with h | h
  · rw [h]
    constructor
    · intro hc
      exact absurd hc (by simp)
    · intro hn
      exact absurd (key.1 h) hn
  · rw [h]
    constructor
    · intro _ hs
      have hnone := key.2 hs
      rw [hnone] at h
      exact absurd h (by simp)
    · intro _
      rfl

/-- C3: the intra-document uniqueness check fails with `DuplicateViolation`
exactly when two distinct records share chain id together with the
case-folded address, the case-folded name, the case-folded symbol, or the
exact logo URI. -/
theorem dupCheck_iff_shared_key (tl : TokenList) :
    dupCheck tl = some .DuplicateViolation ↔
      ∃ i j : Fin tl.tokens.length, i.val < j.val ∧
        (((tl.tokens.get i).chainId = (tl.tokens.get j).chainId ∧
            jsToLower (tl.tokens.get i).address = jsToLower (tl.tokens.get j).address) ∨
          ((tl.tokens.get i).chainId = (tl.tokens.get j).chainId ∧
            jsToLower (tl.tokens.get i).name = jsToLower (tl.tokens.get j).name) ∨
          ((tl.tokens.get i).chainId = (tl.tokens.get j).chainId ∧
            jsToLower (tl.tokens.get i).symbol = jsToLower (tl.tokens.get j).symbol) ∨
          ((tl.tokens.get i).chainId = (tl.tokens.get j).chainId ∧
            (tl.tokens.get i).logoURI = (tl.tokens.get j).logoURI)) := by
  have h1 : dupCheck tl = some .DuplicateViolation ↔
      (hasDupKey (tl.tokens.map addressKey) || hasDupKey (tl.tokens.map nameKeyOf) ||
        hasDupKey (tl.tokens.map symbolKey) || hasDupKey (tl.tokens.map logoKey)) = true := by
    simp only [dupCheck]
    rw [if_some_iff]
  rw [h1]
  simp only [Bool.or_eq_true]
  rw [hasDupKey_map_iff, hasDupKey_map_iff, hasDupKey_map_iff, hasDupKey_map_iff]
  constructor
  · rintro (((h | h) | h) | h) <;> obtain ⟨i, j, hlt, hk⟩ := h
    · exact ⟨i, j, hlt, Or.inl (addressKey_eq_iff.1 hk)⟩
    · exact ⟨i, j, hlt, Or.inr (Or.inl (nameKeyOf_eq_iff.1 hk))⟩
    · exact ⟨i, j, hlt, Or.inr (Or.inr (Or.inl (symbolKey_eq_iff.1 hk)))⟩
    · exact ⟨i, j, hlt, Or.inr (Or.inr (Or.inr (logoKey_eq_iff.1 hk)))⟩
  · rintro ⟨i, j, hlt, (hc | hc | hc | hc)⟩
    · exact Or.inl (Or.inl (Or.inl ⟨i, j, hlt, addressKey_eq_iff.2 hc⟩))
    · exact Or.inl (Or.inl (Or.inr ⟨i, j, hlt, nameKeyOf_eq_iff.2 hc⟩))
    · exact Or.inl (Or.inr ⟨i, j, hlt, symbolKey_eq_iff.2 hc⟩)
    · exact Or.inr ⟨i, j, hlt, logoKey_eq_iff.2 hc⟩

/-- C4: when the candidate timestamp parses, the timestamp check fails with
`TimestampViolation` exactly when the candidate timestamp is strictly after
the evaluation time, or — with a previous document whose timestamp parses —
strictly before the previous timestamp; equality with the previous timestamp
passes, and a future timestamp fails independently of the previous document. -/
theorem timestampCheck_iff_violation (parse : String → Option Int) (now : Int)
    (tl : TokenList) (c : Int) (hc : parse tl.timestamp = some c) :
    (timestampCheck parse now none tl = some .TimestampViolation ↔ now < c) ∧
    (∀ (p : TokenList) (p0 : Int), parse p.timestamp = some p0 →
      (timestampCheck parse now (some p) tl = some .TimestampViolation ↔
        (now < c ∨ c < p0))) := by
  constructor
  · simp only [timestampCheck, hc, jsLt_some_some]
    by_cases h : now < c
    · simp [h]
    · simp [h]
  · intro p p0 hp
    simp only [timestampCheck, hc, hp, jsLt_some_some]
    by_cases h1 : now < c <;> by_cases h2 : c < p0 <;> simp [h1, h2]

/-- C4 witness: previous timestamp 3, candidate timestamp 5, evaluation time
4 (a future candidate timestamp): the violation fires as the claim states. -/
theorem timestampCheck_iff_violation_witness :
    sampleParse candOk.timestamp = some 5 ∧ sampleParse prevDoc.timestamp = some 3 ∧
      (timestampCheck sampleParse 4 (some prevDoc) candOk = some .TimestampViolation ↔
        ((4 : Int) < 5 ∨ (5 : Int) < 3)) :=
  ⟨by decide, by decide,
    (timestampCheck_iff_violation sampleParse 4 candOk 5 (by decide)).2 prevDoc 3 (by decide)⟩

/-- C9: when the candidate's timestamp string does not parse as a date,
every order comparison on it is false, so the timestamp check passes for any
evaluation time and any previous document. -/
theorem timestampCheck_invalid_passes (parse : String → Option Int) (now : Int)
    (prev : Option TokenList) (tl : TokenList) (h : parse tl.timestamp = none) :
    timestampCheck parse now prev tl = none := by
  simp only [timestampCheck, h, jsLt_none_right, jsLt_none_left]
  cases prev <;> simp

/-- C9 witness: a candidate with an unparseable timestamp passes the
timestamp stage even against a previous document with a later timestamp. -/
theorem timestampCheck_invalid_passes_witness :
    sampleParse candBadTs.timestamp = none ∧
      timestampCheck sampleParse 6 (some prevDoc) candBadTs = none :=
  ⟨by decide, timestampCheck_invalid_passes sampleParse 6 (some prevDoc) candBadTs (by decide)⟩

/-- C1: with a previous document whose records have pairwise distinct
identity keys, the cross-version immutability check fails with
`ImmutableRecordViolation` exactly when some candidate record matches a
previous record on `(chainId, lowercase(address))` and differs from it on at
least one of name, symbol, decimals or logoURI; an identical resubmission
passes, and previous records with no matching candidate key are not flagged. -/
theorem immutCheck_iff_modified_match (p tl : TokenList)
    (hnd : (p.tokens.map addressKey).Nodup) :
    immutCheck (some p) tl = some .ImmutableRecordViolation ↔
      ∃ t ∈ tl.tokens, ∃ q ∈ p.tokens,
        t.chainId = q.chainId ∧ jsToLower t.address = jsToLower q.address ∧
          (t.name ≠ q.name ∨ t.symbol ≠ q.symbol ∨ t.decimals ≠ q.decimals ∨
            t.logoURI ≠ q.logoURI) := by
  have h1 : immutCheck (some p) tl = some .ImmutableRecordViolation ↔
      tl.tokens.any (recordModified p.tokens) = true := by
    simp only [immutCheck]
    rw [if_some_iff]
  rw [h1, List.any_eq_true]
  constructor
  · rintro ⟨t, ht, hmod⟩
    refine ⟨t, ht, ?_⟩
    rw [recordModified] at hmod
    rcases hq : lookupPrev p.tokens (addressKey t) with _ | q
    · rw [hq] at hmod
      simp at hmod
    · rw [hq] at hmod
      obtain ⟨hqm, hqk⟩ := lookupPrev_eq_some hq
      obtain ⟨hch, had⟩ := addressKey_eq_iff.1 hqk
      refine ⟨q, hqm, hch.symm, had.symm, ?_⟩
      simp only [Bool.or_eq_true, bne_iff_ne] at hmod
      tauto
  · rintro ⟨t, ht, q, hq, hch, had, hdiff⟩
    refine ⟨t, ht, ?_⟩
    rw [recordModified]
    have hkey : addressKey t = addressKey q := addressKey_eq_iff.2 ⟨hch, had⟩
    rw [hkey, lookupPrev_nodup hnd hq]
    show (t.name != q.name || t.symbol != q.symbol || t.decimals != q.decimals ||
      t.logoURI != q.logoURI) = true
    simp only [Bool.or_eq_true, bne_iff_ne]
    tauto

/-- C1 witness: a candidate changing the decimals of the previous document's
only record is flagged; the iff instance holds at this concrete input. -/
theorem immutCheck_iff_modified_match_witness :
    (prevDoc.tokens.map addressKey).Nodup ∧
      (immutCheck (some prevDoc) candMod = some .ImmutableRecordViolation ↔
        ∃ t ∈ candMod.tokens, ∃ q ∈ prevDoc.tokens,
          t.chainId = q.chainId ∧ jsToLower t.address = jsToLower q.address ∧
            (t.name ≠ q.name ∨ t.symbol ≠ q.symbol ∨ t.decimals ≠ q.decimals ∨
              t.logoURI ≠ q.logoURI)) :=
  ⟨by decide, immutCheck_iff_modified_match prevDoc candMod (by decide)⟩

/-- C10: a candidate record that changes only the letter-case of a previous
record's address — same chain id, case-equal address, identical name, symbol,
decimals and logoURI — is not flagged by the cross-version immutability
check: the match key lowercases the address and the address string itself is
not among the compared fields. -/
theorem recordModified_case_only_false (prevTokens : List Token) (t q : Token)
    (hnd : (prevTokens.map addressKey).Nodup) (hq : q ∈ prevTokens)
    (hchain : t.chainId = q.chainId)
    (haddr : jsToLower t.address = jsToLower q.address)
    (hname : t.name = q.name) (hsym : t.symbol = q.symbol)
    (hdec : t.decimals = q.decimals) (hlogo : t.logoURI = q.logoURI) :
    recordModified prevTokens t = false := by
  rw [recordModified, addressKey_eq_iff.2 ⟨hchain, haddr⟩, lookupPrev_nodup hnd hq]
  show (t.name != q.name || t.symbol != q.symbol || t.decimals != q.decimals ||
    t.logoURI != q.logoURI) = false
  simp [hname, hsym, hdec, hlogo]

/-- C10 witness: address `0xaaa` resubmitted for previous `0xAAA` with all
other fields unchanged is not flagged. -/
theorem recordModified_case_only_false_witness :
    ((prevDoc.tokens.map addressKey).Nodup ∧ tokenA ∈ prevDoc.tokens ∧
      tokenACase.chainId = tokenA.chainId ∧
      jsToLower tokenACase.address = jsToLower tokenA.address ∧
      tokenACase.name = tokenA.name ∧ tokenACase.symbol = tokenA.symbol ∧
      tokenACase.decimals = tokenA.decimals ∧ tokenACase.logoURI = tokenA.logoURI) ∧
    recordModified prevDoc.tokens tokenACase = false :=
  ⟨by decide,
    recordModified_case_only_false prevDoc.tokens tokenACase tokenA (by decide)
      (by decide) (by decide) (by decide) (by decide) (by decide) (by decide) (by decide)⟩

/-- C5: with no previous document, the validator can never produce
`VersionViolation` or `ImmutableRecordViolation`, and — for any candidate
timestamp that is not in the future — no `TimestampViolation` either: the
cross-version checks degrade to no-ops. -/
theorem no_previous_no_cross_violations (cfg : Config) (schemaOk : TokenList → Bool)
    (parse : String → Option Int) (now : Int) (probe : String → Bool) (tl : TokenList)
    (hfut : jsLt (some now) (parse tl.timestamp) = false) :
    (validateTokenList cfg schemaOk parse now probe none tl).1 ≠
        some .VersionViolation ∧
    (validateTokenList cfg schemaOk parse now probe none tl).1 ≠
        some .ImmutableRecordViolation ∧
    (validateTokenList cfg schemaOk parse now probe none tl).1 ≠
        some .TimestampViolation := by
  have hts : timestampCheck parse now none tl = none := by
    simp only [timestampCheck, hfut]
    simp
  have hdet : ∀ v, deterministicChecks cfg schemaOk parse now none tl = some v →
      v = .SchemaViolation ∨ v = .ImmutableFieldViolation ∨ v = .DuplicateViolation ∨
        v = .ChainIdViolation := by
    intro v hd
    unfold deterministicChecks at hd
    rw [hts, show versionCheck none tl = none from rfl,
      show immutCheck none tl = none from rfl] at hd
    rcases schemaCheck_shape schemaOk tl with h1 | h1 <;>
      rcases nameCheck_shape cfg tl with h2 | h2 <;>
      rcases keywordsCheck_shape cfg tl with h3 | h3 <;>
      rcases listLogoCheck_shape cfg tl with h4 | h4 <;>
      rcases dupCheck_shape tl with h5 | h5 <;>
      rcases chainIdCheck_shape cfg tl with h6 | h6 <;>
      rw [h1, h2, h3, h4, h5, h6] at hd <;>
      simp only [Option.none_orElse, Option.some_orElse] at hd <;>
      simp at hd <;>
      subst hd <;>
      simp
  unfold validateTokenList
  cases hd : deterministicChecks cfg schemaOk parse now none tl with
  | none =>
    rcases runProbes_shape probe tl.tokens with h | h <;>
      exact ⟨by simp [h], by simp [h], by simp [h]⟩
  | some v =>
    rcases hdet v hd with h | h | h | h <;> subst h <;>
      exact ⟨by simp, by simp, by simp⟩

/-- C5 witness: a first submission (no previous document) with a
non-future timestamp; none of the three cross-version violations occur. -/
theorem no_previous_no_cross_violations_witness :
    jsLt (some 6) (sampleParse candOk.timestamp) = false ∧
    ((validateTokenList defaultConfig (fun _ => true) sampleParse 6 (fun _ => true)
        none candOk).1 ≠ some .VersionViolation ∧
      (validateTokenList defaultConfig (fun _ => true) sampleParse 6 (fun _ => true)
        none candOk).1 ≠ some .ImmutableRecordViolation ∧
      (validateTokenList defaultConfig (fun _ => true) sampleParse 6 (fun _ => true)
        none candOk).1 ≠ some .TimestampViolation) :=
  ⟨by decide, no_previous_no_cross_violations defaultConfig (fun _ => true) sampleParse 6
    (fun _ => true) candOk (by decide)⟩

/-- C6 counterexample: the source does forcibly terminate the process — on a
candidate with a changed list name the run's action trace contains
`process.exit(1)`, contradicting the claim that the validator never
terminates the process itself. -/
theorem validate_exit_in_trace_cex :
    VAction.exitP 1 ∈ (validateTokenList defaultConfig (fun _ => true) sampleParse 6
      (fun _ => true) none candBadName).2 := by decide

/-- C6 (amended): the validator reports the violation on the console and then
forcibly terminates the process with exit code 1; the verdict is a violation
exactly when the trace contains the matching `console.error` report together
with `process.exit(1)` — violations are never returned for the caller to
recover. -/
theorem validate_verdict_iff_err_and_exit (cfg : Config) (schemaOk : TokenList → Bool)
    (parse : String → Option Int) (now : Int) (probe : String → Bool)
    (prev : Option TokenList) (tl : TokenList) (v : Violation) :
    (validateTokenList cfg schemaOk parse now probe prev tl).1 = some v ↔
      (VAction.err v ∈ (validateTokenList cfg schemaOk parse now probe prev tl).2 ∧
        VAction.exitP 1 ∈ (validateTokenList cfg schemaOk parse now probe prev tl).2) := by
  unfold validateTokenList
  cases hd : deterministicChecks cfg schemaOk parse now prev tl with
  | some w =>
    constructor
    · intro h
      injection h with h
      subst h
      simp
    · rintro ⟨he, _⟩
      simp only [List.mem_cons, List.not_mem_nil, or_false] at he
      rcases he with he | he
      · injection he with he
        rw [he]
      · exact absurd he (by simp)
  | none =>
    constructor
    · intro h
      obtain ⟨_, he, hx⟩ := runProbes_some_trace probe tl.tokens v h
      exact ⟨he, hx⟩
    · rintro ⟨he, _⟩
      exact runProbes_err_mem probe tl.tokens v he

/-- C7: the deterministic verdict (steps 1-7) is a pure function of the
candidate, previous document and configuration: any non-probe violation is
produced independently of the behaviour of the network probe, so two runs on
the same triple yield identical deterministic verdicts. -/
theorem validate_deterministic_verdict_pure (cfg : Config) (schemaOk : TokenList → Bool)
    (parse : String → Option Int) (now : Int) (prev : Option TokenList) (tl : TokenList)
    (probe1 probe2 : String → Bool) (v : Violation)
    (hv : v ≠ .UnreachableLogoViolation) :
    ((validateTokenList cfg schemaOk parse now probe1 prev tl).1 = some v ↔
      (validateTokenList cfg schemaOk parse now probe2 prev tl).1 = some v) := by
  unfold validateTokenList
  cases hd : deterministicChecks cfg schemaOk parse now prev tl with
  | some w => simp
  | none =>
    constructor <;> intro h
    · exact absurd (runProbes_some_trace probe1 tl.tokens v h).1 hv
    · exact absurd (runProbes_some_trace probe2 tl.tokens v h).1 hv

/-- C7 witness: a stale-version candidate gets `VersionViolation` whether the
probe succeeds or fails. -/
theorem validate_deterministic_verdict_pure_witness :
    Violation.VersionViolation ≠ Violation.UnreachableLogoViolation ∧
    ((validateTokenList defaultConfig (fun _ => true) sampleParse 6 (fun _ => true)
        (some prevDoc) prevDoc).1 = some .VersionViolation ↔
      (validateTokenList defaultConfig (fun _ => true) sampleParse 6 (fun _ => false)
        (some prevDoc) prevDoc).1 = some .VersionViolation) :=
  ⟨by decide, validate_deterministic_verdict_pure defaultConfig (fun _ => true) sampleParse 6
    (some prevDoc) prevDoc (fun _ => true) (fun _ => false) .VersionViolation (by decide)⟩

/-- C8: logo probes run last — when any deterministic check fails, the run's
action trace contains no probe at all; probes are only issued once every
deterministic check has passed. -/
theorem no_probe_when_deterministic_fails (cfg : Config) (schemaOk : TokenList → Bool)
    (parse : String → Option Int) (now : Int) (probe : String → Bool)
    (prev : Option TokenList) (tl : TokenList)
    (h : (deterministicChecks cfg schemaOk parse now prev tl).isSome = true) :
    ∀ u, VAction.probe u ∉
      (validateTokenList cfg schemaOk parse now probe prev tl).2 := by
  intro u
  unfold validateTokenList
  cases hd : deterministicChecks cfg schemaOk parse now prev tl with
  | none =>
    rw [hd] at h
    simp at h
  | some w => simp

/-- C8 witness: with a failing fixed-identity check, the record's logo URI is
never probed. -/
theorem no_probe_when_deterministic_fails_witness :
    (deterministicChecks defaultConfig (fun _ => true) sampleParse 6 none
        candBadName).isSome = true ∧
    VAction.probe "https://a/1.png" ∉ (validateTokenList defaultConfig (fun _ => true)
      sampleParse 6 (fun _ => true) none candBadName).2 :=
  ⟨by decide, no_probe_when_deterministic_fails defaultConfig (fun _ => true) sampleParse 6
    (fun _ => true) none candBadName (by decide) "https://a/1.png"⟩
